import Mathlib

/-!
Formal model of `src/article_generator/generator.py`, an article-page
generator: it loads structured article data (YAML/JSON), normalizes it,
resolves image references against an images root, renders templates, and
maintains a JSON manifest of article summaries upserted by slug.

External collaborators (the YAML/JSON text parsers, the Jinja template
engine, and the filesystem) are modelled as explicit inputs: parsed
documents are values of type `Val`, the filesystem is a record of pure
query functions, and rendering is modelled as the construction of the
template context (the template engine itself only consumes that context).
-/

/-- A parsed YAML/JSON document value (the output of `yaml.safe_load` /
`json.load`).  `date` models the `datetime.date`/`datetime.datetime`
objects that `yaml.safe_load` produces for date-like scalars, carried as
their ISO-8601 string (the only thing the source observes about them,
via `isoformat()`). -/
inductive Val where
  | null : Val
  | bool (b : Bool) : Val
  | int (n : Int) : Val
  | float (q : Rat) : Val
  | str (s : String) : Val
  | date (iso : String) : Val
  | list (xs : List Val) : Val
  | dict (kvs : List (String × Val)) : Val

/-- A JSON object / Python dict, as an association list in insertion
order (Python dicts preserve insertion order; keys are unique). -/
abbrev Entry := List (String × Val)

/-- Python truthiness test on an optional string (`if not path:` treats
both `None` and `""` as falsy). -/
def optStrTruthy : Option String → Bool
  | none => false
  | some s => s ≠ ""

/-- Lift an optional string into a document value (`None` vs a string). -/
def optVal : Option String → Val
  | none => Val.null
  | some s => Val.str s

/-! ### String primitives

Lean's built-in `String.endsWith`, `String.toLower`, `String.splitOn`
and the string order are implemented over byte iterators; the versions
below compute over the character list directly (same functions on the
strings that occur here, which are plain ASCII paths and keys). -/

/-- Whether the first character list is a prefix of the second. -/
def listIsPrefix : List Char → List Char → Bool
  | [], _ => true
  | _ :: _, [] => false
  | a :: as, b :: bs => a == b && listIsPrefix as bs

/-- Python `s.endswith(suffix)` / Lean `String.endsWith`. -/
def strEndsWith (s suffix : String) : Bool :=
  listIsPrefix suffix.data.reverse s.data.reverse

/-- Python `s.startswith(p)` / Lean `String.startsWith`. -/
def strStartsWith (s p : String) : Bool :=
  listIsPrefix p.data s.data

/-- ASCII lowercasing of one character (all the characters compared
case-insensitively in the source are ASCII). -/
def charLower (c : Char) : Char :=
  if 65 ≤ c.toNat && c.toNat ≤ 90 then Char.ofNat (c.toNat + 32) else c

/-- Python `s.lower()`. -/
def strLower (s : String) : String :=
  String.mk (s.data.map charLower)

/-- Split a character list on a separator (keeping empty pieces, as
`str.split` / `String.splitOn` do). -/
def splitCharsOn (sep : Char) : List Char → List (List Char)
  | [] => [[]]
  | c :: cs =>
      if c = sep then [] :: splitCharsOn sep cs
      else match splitCharsOn sep cs with
        | x :: xs => (c :: x) :: xs
        | [] => [[c]]

/-- Code-point lexicographic order on character lists (Python's string
comparison). -/
def listCharLe : List Char → List Char → Bool
  | [], _ => true
  | _ :: _, [] => false
  | a :: as, b :: bs =>
      if a.toNat < b.toNat then true
      else if b.toNat < a.toNat then false
      else listCharLe as bs

/-- Code-point lexicographic order on strings. -/
def strLe (a b : String) : Bool :=
  listCharLe a.data b.data

/-- Python `x is None` on a document value. -/
def isNone : Val → Bool
  | Val.null => true
  | _ => false

/-- Python `str()` of a document value.  Exact for `None`, booleans,
strings, integers and date objects (where the source always applies
`isoformat()` first); for floats, lists and dicts Python's `repr` has
details (shortest-round-trip float printing, quoting) that no claim
observes, so those cases use a simple approximation. -/
def pyStr : Val → String
  | Val.null => "None"
  | Val.bool b => if b then "True" else "False"
  | Val.int n => toString n
  | Val.float q => toString q
  | Val.str s => s
  | Val.date iso => iso
  | Val.list _ => "<list>"
  | Val.dict _ => "<dict>"

/-- Failure modes of the loader.  The source signals failures through
Python exceptions: `KeyError` for the missing top-level `article` key,
`TypeError` for a missing required dataclass field, an unexpected
keyword, a non-mapping where a mapping is needed, or a non-iterable
where iteration is needed, and parser exceptions for malformed input.
`unsupportedFormat` exists only to state the spec's claimed behavior
for unknown file extensions; no definition below ever produces it. -/
inductive LoadErr where
  | unsupportedFormat : LoadErr
  | parseError (msg : String) : LoadErr
  | missingField (name : String) : LoadErr
  | unexpectedField (name : String) : LoadErr
  | typeError (msg : String) : LoadErr
deriving DecidableEq

/-- Python iteration over a document value (`for x in v`): lists yield
their elements, strings their characters (as 1-character strings), dicts
their keys; every other value raises `TypeError`. -/
def pyIter : Val → Except LoadErr (List Val)
  | Val.list xs => Except.ok xs
  | Val.str s => Except.ok (s.data.map (fun c => Val.str (String.mk [c])))
  | Val.dict kvs => Except.ok (kvs.map (fun kv => Val.str kv.1))
  | _ => Except.error (LoadErr.typeError "object is not iterable")

/-- Python whitespace, as stripped by `float(str)`. -/
def isPyWS (c : Char) : Bool :=
  c = ' ' || c = '\t' || c = '\n' || c = '\r' || c = '\x0b' || c = '\x0c'

/-- Numeric value of a digit string. -/
def digitsVal (cs : List Char) : Nat :=
  cs.foldl (fun a c => a * 10 + (c.toNat - 48)) 0

/-- Split a character list at the first occurrence of a decimal point. -/
def splitAtChar (sep : Char) : List Char → Option (List Char × List Char)
  | [] => none
  | c :: cs =>
      if c = sep then some ([], cs)
      else match splitAtChar sep cs with
        | some (a, b) => some (c :: a, b)
        | none => none

/-- Parse the mantissa of a Python float literal: `d+`, `d+.d*`, `.d+`
or `d+.d+` (at least one digit overall). -/
def parseMantissa (cs : List Char) : Option Rat :=
  match splitAtChar '.' cs with
  | none =>
      if cs ≠ [] && cs.all Char.isDigit then some (digitsVal cs) else none
  | some (ip, fp) =>
      if (ip ≠ [] || fp ≠ []) && ip.all Char.isDigit && fp.all Char.isDigit then
        some ((digitsVal ip : Rat) + (digitsVal fp : Rat) / ((10 : Rat) ^ fp.length))
      else none

/-- Parse an optional sign followed by the rest, returning the sign as a
rational factor. -/
def parseSign : List Char → Rat × List Char
  | '+' :: cs => (1, cs)
  | '-' :: cs => (-1, cs)
  | cs => (1, cs)

/-- Parse the exponent part of a Python float literal (after `e`/`E`). -/
def parseExponent (cs : List Char) : Option Int :=
  let (sgn, body) := parseSign cs
  if body ≠ [] && body.all Char.isDigit then
    some (if sgn = 1 then (digitsVal body : Int) else -(digitsVal body : Int))
  else none

/-- Python `float()` applied to a string: strips surrounding whitespace,
then accepts an optionally signed decimal literal with optional
fraction and exponent.  (Python additionally accepts `inf`/`nan`
spellings and digit-group underscores; neither occurs in any claim and
both are left unmodelled.  Values are exact rationals: the rounding of
decimal literals to binary doubles is not observed by any claim.) -/
def pyFloatOfString (s : String) : Option Rat :=
  let cs := (s.data.dropWhile isPyWS).reverse.dropWhile isPyWS |>.reverse
  let (sgn, body) := parseSign cs
  match splitAtChar 'e' body with
  | some (m, e) =>
      match parseMantissa m, parseExponent e with
      | some q, some k => some (sgn * q * (10 : Rat) ^ k)
      | _, _ => none
  | none =>
      match splitAtChar 'E' body with
      | some (m, e) =>
          match parseMantissa m, parseExponent e with
          | some q, some k => some (sgn * q * (10 : Rat) ^ k)
          | _, _ => none
      | none =>
          match parseMantissa body with
          | some q => some (sgn * q)
          | none => none

/-- Python `float()` applied to a document value: numbers and booleans
coerce, numeric strings parse, everything else raises (the source wraps
the call in `try/except`, so "raises" surfaces as `none`). -/
def pyFloat : Val → Option Rat
  | Val.int n => some (n : Rat)
  | Val.float q => some q
  | Val.bool b => some (if b then 1 else 0)
  | Val.str s => pyFloatOfString s
  | _ => none

/-! ### The data loader (`load_article_data`, generator.py lines 103-142) -/

/-- `dict(v)`: require a mapping (`TypeError` otherwise).  Python's
`dict()` also accepts iterables of key/value pairs; the source only ever
applies it to values that come from parsed YAML/JSON mappings, so that
case is the one modelled. -/
def asDict : Val → Except LoadErr Entry
  | Val.dict kvs => Except.ok kvs
  | _ => Except.error (LoadErr.typeError "argument is not a mapping")

/-- Replace the value stored under a key, keeping its position
(assignment to an existing key of a Python dict). -/
def setKey (e : Entry) (k : String) (v : Val) : Entry :=
  e.map (fun kv => if kv.1 = k then (k, v) else kv)

/-- `_to_str_if_date` (lines 103-106): date/datetime objects become
their `isoformat()` string, everything else passes through. -/
def toStrIfDate : Val → Val
  | Val.date iso => Val.str iso
  | v => v

/-- The dynamic result of `ArticleMeta(**item)`: dataclass construction
binds keyword arguments without checking value types, so each field
holds an arbitrary document value (or its declared default). -/
structure MetaD where
  title : Val
  slug : Val
  description : Val := Val.null
  date : Val := Val.null
  tags : Val := Val.list []
  hero_image : Val := Val.null
  cover_credit : Val := Val.null

/-- The field names of the `ArticleMeta` dataclass. -/
def metaFieldNames : List String :=
  ["title", "slug", "description", "date", "tags", "hero_image", "cover_credit"]

/-- `ArticleMeta(**e)`: keyword binding raises `TypeError` on an
unexpected keyword (checked first, as CPython does), then on a missing
required field (`title`, `slug`); otherwise each field receives the
given value or its default. -/
def mkMeta (e : Entry) : Except LoadErr MetaD :=
  match e.find? (fun kv => !(metaFieldNames.contains kv.1)) with
  | some kv => Except.error (LoadErr.unexpectedField kv.1)
  | none =>
      match e.lookup "title" with
      | none => Except.error (LoadErr.missingField "title")
      | some t =>
          match e.lookup "slug" with
          | none => Except.error (LoadErr.missingField "slug")
          | some s =>
              Except.ok
                { title := t, slug := s,
                  description := (e.lookup "description").getD Val.null,
                  date := (e.lookup "date").getD Val.null,
                  tags := (e.lookup "tags").getD (Val.list []),
                  hero_image := (e.lookup "hero_image").getD Val.null,
                  cover_credit := (e.lookup "cover_credit").getD Val.null }

/-- `ArticleMeta(**e)` under a blanket exception handler: any failure is
just a failure. -/
def mkMetaOpt (e : Entry) : Option MetaD := (mkMeta e).toOption

/-- The dynamic result of `Review(**r)` after normalization. -/
structure ReviewD where
  author : Val
  rating : Val := Val.null
  date : Val := Val.null
  content : Val := Val.str ""
  pros : Val := Val.list []
  cons : Val := Val.list []
  images : Val := Val.list []

/-- The field names of the `Review` dataclass. -/
def reviewFieldNames : List String :=
  ["author", "rating", "date", "content", "pros", "cons", "images"]

/-- `Review(**r)`: keyword binding, same discipline as `mkMeta`. -/
def mkReview (e : Entry) : Except LoadErr ReviewD :=
  match e.find? (fun kv => !(reviewFieldNames.contains kv.1)) with
  | some kv => Except.error (LoadErr.unexpectedField kv.1)
  | none =>
      match e.lookup "author" with
      | none => Except.error (LoadErr.missingField "author")
      | some a =>
          Except.ok
            { author := a,
              rating := (e.lookup "rating").getD Val.null,
              date := (e.lookup "date").getD Val.null,
              content := (e.lookup "content").getD (Val.str ""),
              pros := (e.lookup "pros").getD (Val.list []),
              cons := (e.lookup "cons").getD (Val.list []),
              images := (e.lookup "images").getD (Val.list []) }

/-- The `date` normalization shared by the article and review loops
(lines 118-119 and 128-129): when a non-`None` `date` key is present,
replace it with `str(_to_str_if_date(...))`. -/
def dateStepEntry (e : Entry) : Entry :=
  match e.lookup "date" with
  | some dv => if isNone dv then e else setKey e "date" (Val.str (pyStr (toStrIfDate dv)))
  | none => e

/-- The `rating` normalization (lines 130-134): when a non-`None`
`rating` key is present, replace it with `float(...)` on success and
`None` on any coercion failure. -/
def ratingStepEntry (e : Entry) : Entry :=
  match e.lookup "rating" with
  | some rv =>
      if isNone rv then e
      else
        setKey e "rating" (match pyFloat rv with
          | some q => Val.float q
          | none => Val.null)
  | none => e

/-- The string-list normalization shared by `tags`, `pros` and `cons`
(lines 120-121, 135-138): when a non-`None` value is present under the
key, iterate it and replace it with the list of stringified elements
(failing when it is not iterable). -/
def strListStep (k : String) (e : Entry) : Except LoadErr Entry :=
  match e.lookup k with
  | some v =>
      if isNone v then pure e
      else do
        let xs ← pyIter v
        pure (setKey e k (Val.list (xs.map (fun x => Val.str (pyStr x)))))
  | none => pure e

/-- The per-review normalization loop body, continued: `date`, then
`rating`, then `pros` and `cons`, then `Review(**r)`. -/
def normalizeReview (v : Val) : Except LoadErr ReviewD := do
  let r ← asDict v
  let r := dateStepEntry r
  let r := ratingStepEntry r
  let r ← strListStep "pros" r
  let r ← strListStep "cons" r
  mkReview r

/-- The loader's typed output: one article record, its reviews, and the
raw `gallery_dir` value (`raw.get("gallery_dir")`). -/
structure ArticleDataD where
  article : MetaD
  reviews : List ReviewD
  gallery_dir : Val := Val.null

/-- The article-side normalization of `load_article_data` (lines
117-123): normalize `date` to a string and `tags` to a list of strings,
then construct `ArticleMeta(**art_raw)`. -/
def normalizeArticleEntry (art : Entry) : Except LoadErr MetaD := do
  let art := dateStepEntry art
  let art ← strListStep "tags" art
  mkMeta art

/-- `raw["article"]` (line 116): `KeyError` when the key is absent. -/
def getArticleVal (kvs : Entry) : Except LoadErr Val :=
  match kvs.lookup "article" with
  | some v => Except.ok v
  | none => Except.error (LoadErr.missingField "article")

/-- `load_article_data` on an already-parsed document (lines 116-142):
fetch and copy the `article` mapping, normalize it into `ArticleMeta`,
normalize each entry of `reviews` (default empty), and read
`gallery_dir`. -/
def load_article_data (raw : Val) : Except LoadErr ArticleDataD := do
  let kvs ← asDict raw
  let artv ← getArticleVal kvs
  let art ← asDict artv
  let meta ← normalizeArticleEntry art
  let revVals ← pyIter ((kvs.lookup "reviews").getD (Val.list []))
  let reviews ← revVals.mapM normalizeReview
  return { article := meta, reviews := reviews,
           gallery_dir := (kvs.lookup "gallery_dir").getD Val.null }

/-- Which text parser the extension dispatch selects. -/
inductive ParserKind where
  | yaml : ParserKind
  | json : ParserKind
deriving DecidableEq

/-- The extension dispatch of `load_article_data` (line 111): paths
whose lowercased form ends in `.yaml` or `.yml` go to `yaml.safe_load`;
every other path goes to `json.load`.  There is no third branch. -/
def chooseParserKind (file_path : String) : ParserKind :=
  if strEndsWith (strLower file_path) ".yaml" || strEndsWith (strLower file_path) ".yml" then
    ParserKind.yaml
  else
    ParserKind.json

/-- `load_article_data` on a file: dispatch on the extension, run the
selected external text parser on the file's content, then process the
parsed document.  The two parsers are external collaborators, passed in
as functions. -/
def load_article_data_file (parseYamlText parseJsonText : String → Except String Val)
    (file_path content : String) : Except LoadErr ArticleDataD :=
  match (match chooseParserKind file_path with
         | ParserKind.yaml => parseYamlText content
         | ParserKind.json => parseJsonText content) with
  | Except.error msg => Except.error (LoadErr.parseError msg)
  | Except.ok raw => load_article_data raw

/-! ### Paths and the filesystem -/

/-- `os.path.join(a, b)` for POSIX paths: an absolute second argument
replaces the first; otherwise the two are joined with a single
separator. -/
def osJoin (a b : String) : String :=
  if strStartsWith b "/" then b
  else if a = "" then b
  else if strEndsWith a "/" then a ++ b
  else a ++ "/" ++ b

/-- Split a path into its components, discarding empty components and
`.` (the component-level normalization `os.path.normpath` performs). -/
def splitParts (p : String) : List String :=
  ((splitCharsOn '/' p.data).map String.mk).filter (fun c => c ≠ "" && c ≠ ".")

/-- Resolve `..` components against the path so far, with a leading
`..` at the root vanishing (absolute-path normalization). -/
def normParts (parts : List String) : List String :=
  parts.foldl (fun acc part =>
    if part = ".." then acc.dropLast else acc ++ [part]) []

/-- The normalized absolute component list of a path.  Python's
`os.path.abspath` prefixes the process working directory before
normalizing; `os.path.relpath` is only ever applied here to two paths
sharing the same root, so the common working-directory prefix cancels
and the model roots every path at `/`. -/
def absParts (p : String) : List String :=
  normParts (splitParts p)

/-- Length of the common prefix of two component lists. -/
def commonPrefixLen : List String → List String → Nat
  | x :: xs, y :: ys => if x = y then commonPrefixLen xs ys + 1 else 0
  | _, _ => 0

/-- Join components with `/` (the `os.path.join(*rel_list)` step of
`os.path.relpath`). -/
def joinSlash : List String → String
  | [] => ""
  | [x] => x
  | x :: xs => x ++ "/" ++ joinSlash xs

/-- `os.path.relpath(path, start)` for POSIX paths: climb out of the
components of `start` past the common prefix, then descend into the
rest of `path`; two equal paths yield `"."`. -/
def osRelpath (path strt : String) : String :=
  let pl := absParts path
  let sl := absParts strt
  let i := commonPrefixLen sl pl
  match List.replicate (sl.length - i) ".." ++ pl.drop i with
  | [] => "."
  | x :: xs => joinSlash (x :: xs)

/-- The filesystem, as seen through the queries the source makes:
`os.path.exists`, `os.path.isdir`, `os.listdir`, and reading a text
file. -/
structure FS where
  pathExists : String → Bool
  isDir : String → Bool
  listdir : String → List String
  readFile : String → String

/-- `ArticleGenerator._load_styles` (lines 52-57): read
`assets_dir/styles.css` if it exists, else the empty string. -/
def loadStyles (fs : FS) (assets_dir : String) : String :=
  let css_path := osJoin assets_dir "styles.css"
  if fs.pathExists css_path then fs.readFile css_path else ""

/-! ### The renderer (`ArticleGenerator.render_article`, lines 59-93) -/

/-- The typed article record, at the field types the `ArticleMeta`
dataclass declares. -/
structure ArticleMeta where
  title : String
  slug : String
  description : Option String := none
  date : Option String := none
  tags : List String := []
  hero_image : Option String := none
  cover_credit : Option String := none

/-- The typed review record, at the field types the `Review` dataclass
declares. -/
structure Review where
  author : String
  rating : Option Rat := none
  date : Option String := none
  content : String := ""
  pros : List String := []
  cons : List String := []
  images : List String := []

/-- The typed article payload the renderer consumes. -/
structure ArticleData where
  article : ArticleMeta
  reviews : List Review
  gallery_dir : Option String := none

/-- `resolve_image` (lines 64-71): a falsy path resolves to nothing; an
existing `images_root/path` resolves to its root-relative form; a
missing one resolves to nothing with a warning.  The second component
collects the warnings printed. -/
def resolve_image (fs : FS) (images_root : String) :
    Option String → Option String × List String
  | none => (none, [])
  | some p =>
      if p = "" then (none, [])
      else
        let full := osJoin images_root p
        if fs.pathExists full then (some (osRelpath full images_root), [])
        else (none, ["missing image " ++ full])

/-- The review-image comprehension (line 84):
`[p for p in (resolve_image(p) for p in review.images) if p]`, keeping
resolved paths that are truthy, in order, together with the warnings
emitted. -/
def resolveReviewImages (fs : FS) (images_root : String) :
    List String → List String × List String
  | [] => ([], [])
  | p :: ps =>
      let rest := resolveReviewImages fs images_root ps
      match resolve_image fs images_root (some p) with
      | (some s, w) =>
          (if s = "" then rest.1 else s :: rest.1, w ++ rest.2)
      | (none, w) => (rest.1, w ++ rest.2)

/-- The extension test of the gallery loop (line 80):
`name.lower().endswith((".jpg", ".jpeg", ".png", ".gif", ".webp"))`. -/
def hasImageExtension (name : String) : Bool :=
  strEndsWith (strLower name) ".jpg" || strEndsWith (strLower name) ".jpeg" ||
    strEndsWith (strLower name) ".png" || strEndsWith (strLower name) ".gif" ||
    strEndsWith (strLower name) ".webp"

/-- Python's `sorted` on strings: a stable lexicographic sort (modelled
by insertion sort, which is stable, with Lean's lexicographic order on
strings). -/
def pySorted (l : List String) : List String :=
  List.insertionSort (fun a b => strLe a b = true) l

/-- The gallery enumeration loop (lines 75-81): when `gallery_dir` is
truthy and `images_root/gallery_dir` is a directory, walk its sorted
listing and append the root-relative path of every image-named entry. -/
def galleryImages (fs : FS) (images_root : String) :
    Option String → List String
  | none => []
  | some g =>
      if g = "" then []
      else
        let gallery_abs := osJoin images_root g
        if fs.isDir gallery_abs then
          (pySorted (fs.listdir gallery_abs)).foldl
            (fun acc name =>
              if hasImageExtension name then
                acc ++ [osRelpath (osJoin gallery_abs name) images_root]
              else acc) []
        else []

/-- The context handed to the `article.html.j2` template (lines 86-92),
plus the warnings printed along the way.  Template loading and the
production of HTML text from this context belong to the external
template engine; a missing template file is a fatal configuration
error independent of the data being rendered. -/
structure RenderCtx where
  styles : String
  article : ArticleMeta
  hero_image : Option String
  gallery_images : List String
  reviews : List Review
  warnings : List String

/-- `ArticleGenerator.render_article` (lines 59-93): resolve the hero
image, enumerate the gallery, destructively replace each review's
`images` with its resolved list, and build the template context.  The
second component is the (mutated) `ArticleData` the caller's reference
sees afterwards. -/
def render_article (fs : FS) (assets_dir images_root : String)
    (data : ArticleData) : RenderCtx × ArticleData :=
  let styles := loadStyles fs assets_dir
  let hero := resolve_image fs images_root data.article.hero_image
  let gallery := galleryImages fs images_root data.gallery_dir
  let resolved := data.reviews.map
    (fun rv => (({ rv with images := (resolveReviewImages fs images_root rv.images).1 } : Review),
                (resolveReviewImages fs images_root rv.images).2))
  let reviews := resolved.map Prod.fst
  ({ styles := styles, article := data.article, hero_image := hero.1,
     gallery_images := gallery, reviews := reviews,
     warnings := hero.2 ++ (resolved.map Prod.snd).flatten },
   { data with reviews := reviews })

/-! ### The manifest store (`write_manifest`, `write_index`, lines 157-218) -/

/-- The state of `manifest.json`: absent, present but not valid JSON,
or parsed.  The manifest subsystem's own format — the only one
`write_manifest` ever writes and the only one the upsert's
`i.get("slug")` handles without raising — is a JSON array of objects,
so the parsed state carries a list of `Entry`. -/
abbrev ManifestState := Option (Option (List Entry))

/-- The items `write_manifest` starts from (lines 192-198): an absent
or unparseable manifest file is treated as the empty list. -/
def manifestItems : ManifestState → List Entry
  | none => []
  | some none => []
  | some (some items) => items

/-- The comparison the upsert filter makes (line 200):
`i.get("slug") != article_meta.slug`.  A Python `dict.get` miss yields
`None`, and equality of a non-string (or `None`) with a string is
`False`, so an item survives the filter exactly when its `slug` value
is not the string being upserted. -/
def entrySlugMatches (e : Entry) (slug : String) : Bool :=
  match e.lookup "slug" with
  | some (Val.str s) => s == slug
  | _ => false

/-- The projected manifest entry (lines 201-207): the five summary
fields of an `ArticleMeta`.  Its `date` field is typed `Optional[str]`,
so `str(article_meta.date)` is the string itself when present. -/
def projectEntry (m : ArticleMeta) : Entry :=
  [("title", Val.str m.title),
   ("slug", Val.str m.slug),
   ("description", optVal m.description),
   ("date", optVal m.date),
   ("tags", Val.list (m.tags.map Val.str))]

/-- The upsert at the heart of `write_manifest` (lines 199-207): drop
every item whose slug matches, then append the fresh projection. -/
def upsertManifest (items : List Entry) (m : ArticleMeta) : List Entry :=
  items.filter (fun i => !(entrySlugMatches i m.slug)) ++ [projectEntry m]

/-- The output directory's persistent state: the manifest file and the
per-slug sidecar files (filename paired with parsed JSON content, in
directory order). -/
structure OutDir where
  manifest : ManifestState
  sidecars : List (String × Val)

/-- Store a sidecar file, overwriting by name. -/
def putSidecar (files : List (String × Val)) (name : String) (v : Val) :
    List (String × Val) :=
  if files.any (fun f => f.1 == name) then
    files.map (fun f => if f.1 == name then (name, v) else f)
  else files ++ [(name, v)]

/-- `write_manifest(out_dir, article_meta)` (lines 190-218): read the
manifest (absent or corrupt means empty), upsert by slug, write the
array back, and unconditionally overwrite the `<slug>.meta.json`
sidecar with the same projection. -/
def write_manifest (st : OutDir) (article_meta : ArticleMeta) : OutDir :=
  let items := manifestItems st.manifest
  { manifest := some (some (upsertManifest items article_meta)),
    sidecars := putSidecar st.sidecars (article_meta.slug ++ ".meta.json")
      (Val.dict (projectEntry article_meta)) }

/-- The reconstruction loop of `write_index`'s manifest phase (lines
166-167) under its enclosing `try` (lines 163-169): append
`ArticleMeta(**item)` for each item until one raises; the exception
abandons the rest of the loop but keeps what was already appended. -/
def collectMetas : List Entry → List MetaD
  | [] => []
  | e :: rest =>
      match mkMetaOpt e with
      | some md => md :: collectMetas rest
      | none => []

/-- The manifest-reading phase of `write_index` (lines 161-169): if the
manifest file exists, a single `try` covers parsing it and the whole
reconstruction loop, so the first entry that fails to reconstruct
aborts the loop — the entries appended before it are kept, the failing
entry and every later entry are dropped, and the exception is swallowed
(a warning is printed; the run continues). -/
def readManifestPhase (ms : ManifestState) : List MetaD :=
  match ms with
  | none => []
  | some none => []
  | some (some items) => collectMetas items

/-- The sidecar fallback of `write_index` (lines 172-180): for each
`*.meta.json` file, reconstruct `ArticleMeta(**meta)` and skip the file
on `TypeError` (a non-object document or a shape mismatch).  The model
stores parsed sidecar content; a sidecar whose JSON text fails to parse
would crash `write_index` in the source, a state the store itself never
produces. -/
def sidecarFallback (files : List (String × Val)) : List MetaD :=
  files.foldl (fun acc f =>
    if strEndsWith f.1 ".meta.json" then
      match f.2 with
      | Val.dict e =>
          match mkMetaOpt e with
          | some md => acc ++ [md]
          | none => acc
      | _ => acc
    else acc) []

/-- The article list `write_index` renders (lines 157-183): the
manifest-reading phase, falling back to the sidecar scan when it came
up empty.  Rendering the `index.html.j2` template from this list is the
external template engine's job. -/
def write_index_articles (st : OutDir) : List MetaD :=
  let articles := readManifestPhase st.manifest
  if articles.isEmpty then sidecarFallback st.sidecars else articles

/-- The reconstruction `mkMeta` performs on a projected entry, spelled
out: the five round-tripped fields, with `hero_image` and
`cover_credit` at their defaults. -/
def projectMetaD (m : ArticleMeta) : MetaD :=
  { title := Val.str m.title, slug := Val.str m.slug,
    description := optVal m.description, date := optVal m.date,
    tags := Val.list (m.tags.map Val.str),
    hero_image := Val.null, cover_credit := Val.null }

/-- Whether a reconstructed record's slug is the given string. -/
def mdSlugIs (md : MetaD) (slug : String) : Bool :=
  match md.slug with
  | Val.str s => s == slug
  | _ => false

/-! ### Lemmas about manifest entries -/

theorem lookup_projectEntry_slug (m : ArticleMeta) :
    (projectEntry m).lookup "slug" = some (Val.str m.slug) := rfl

theorem mkMeta_projectEntry (m : ArticleMeta) :
    mkMeta (projectEntry m) = Except.ok (projectMetaD m) := rfl

theorem mkMetaOpt_projectEntry (m : ArticleMeta) :
    mkMetaOpt (projectEntry m) = some (projectMetaD m) := rfl

theorem entrySlugMatches_projectEntry (m : ArticleMeta) (s : String) :
    entrySlugMatches (projectEntry m) s = (m.slug == s) := rfl

theorem mdSlugIs_projectMetaD (m : ArticleMeta) (s : String) :
    mdSlugIs (projectMetaD m) s = (m.slug == s) := rfl

/-- One upsert leaves exactly one slug-matching item in the manifest. -/
theorem upsert_count_one (items : List Entry) (m : ArticleMeta) :
    ((upsertManifest items m).filter (fun e => entrySlugMatches e m.slug)).length = 1 := by
  unfold upsertManifest
  rw [List.filter_append, List.filter_filter]
  have h1 : items.filter (fun e =>
      entrySlugMatches e m.slug && !(entrySlugMatches e m.slug)) = [] := by
    apply List.filter_eq_nil_iff.mpr
    intro e _
    simp
  have h2 : [projectEntry m].filter (fun e => entrySlugMatches e m.slug)
      = [projectEntry m] := by
    simp [List.filter, entrySlugMatches_projectEntry]
  rw [h1, h2]
  rfl

/-- Claim C6: for every `ArticleMeta` and every starting manifest state
(absent, unparseable, or an array of entry objects — the manifest's own
format), calling `write_manifest` twice with the same `ArticleMeta`
produces a manifest containing exactly one entry whose slug equals that
`ArticleMeta`'s slug: the upsert removes every matching entry before
appending the fresh one. -/
theorem claim_C6_idempotent_upsert (st : OutDir) (m : ArticleMeta) :
    ((manifestItems (write_manifest (write_manifest st m) m).manifest).filter
        (fun e => entrySlugMatches e m.slug)).length = 1 := by
  have h : manifestItems (write_manifest (write_manifest st m) m).manifest
      = upsertManifest (upsertManifest (manifestItems st.manifest) m) m := rfl
  rw [h]
  exact upsert_count_one _ m

/-- Claim C5: starting from an empty manifest, writing entries for
slugs A, then B, then A again with a changed title yields a manifest of
exactly B followed by the updated A — the upsert removes the old A and
appends, so the updated entry sits at the end, not in A's original
position. -/
theorem claim_C5_upsert_ordering (st : OutDir) (mA mB mA' : ArticleMeta)
    (h0 : manifestItems st.manifest = [])
    (hAB : mA.slug ≠ mB.slug) (hslug : mA'.slug = mA.slug)
    (htitle : mA'.title ≠ mA.title) :
    manifestItems (write_manifest (write_manifest (write_manifest st mA) mB) mA').manifest
      = [projectEntry mB, projectEntry mA'] := by
  have h : manifestItems (write_manifest (write_manifest (write_manifest st mA) mB) mA').manifest
      = upsertManifest (upsertManifest (upsertManifest (manifestItems st.manifest) mA) mB) mA' := rfl
  rw [h, h0]
  have h1 : upsertManifest [] mA = [projectEntry mA] := rfl
  rw [h1]
  have hAfalse : entrySlugMatches (projectEntry mA) mB.slug = false := by
    rw [entrySlugMatches_projectEntry]
    exact beq_eq_false_iff_ne.mpr hAB
  have h2 : upsertManifest [projectEntry mA] mB = [projectEntry mA, projectEntry mB] := by
    unfold upsertManifest
    simp [List.filter, hAfalse]
  rw [h2]
  have hAtrue : entrySlugMatches (projectEntry mA) mA'.slug = true := by
    rw [entrySlugMatches_projectEntry, hslug]
    exact beq_self_eq_true mA.slug
  have hBfalse : entrySlugMatches (projectEntry mB) mA'.slug = false := by
    rw [entrySlugMatches_projectEntry, hslug]
    exact beq_eq_false_iff_ne.mpr (fun hc => hAB hc.symm)
  unfold upsertManifest
  simp [List.filter, hAtrue, hBfalse]

/-- An empty output directory. -/
def emptyOutDir : OutDir := { manifest := none, sidecars := [] }

def metaAlpha : ArticleMeta := { title := "First", slug := "alpha" }

def metaBeta : ArticleMeta := { title := "Second", slug := "beta" }

def metaAlphaV2 : ArticleMeta := { title := "First, updated", slug := "alpha" }

/-- Witness for claim C5 at a concrete run: slugs alpha, beta, then
alpha again with a new title leave the manifest as beta followed by the
updated alpha. -/
theorem claim_C5_upsert_ordering_witness :
    manifestItems (write_manifest (write_manifest (write_manifest emptyOutDir metaAlpha)
        metaBeta) metaAlphaV2).manifest
      = [projectEntry metaBeta, projectEntry metaAlphaV2] :=
  claim_C5_upsert_ordering emptyOutDir metaAlpha metaBeta metaAlphaV2 rfl
    (by decide) rfl (by decide)

/-! ### Lemmas about manifest reconstruction -/

/-- A successful `ArticleMeta(**e)` read its slug from the entry. -/
theorem mkMetaOpt_slug {e : Entry} {md : MetaD} (h : mkMetaOpt e = some md) :
    e.lookup "slug" = some md.slug := by
  unfold mkMetaOpt mkMeta at h
  split at h
  · simp [Except.toOption] at h
  · split at h
    · simp [Except.toOption] at h
    · rename_i ht
      split at h
      · simp [Except.toOption] at h
      · rename_i hs
        simp [Except.toOption] at h
        rw [hs, ← h]

/-- An entry the upsert filter kept never reconstructs to the upserted
slug. -/
theorem mdSlugIs_false_of_kept {e : Entry} {md : MetaD} {s : String}
    (hm : mkMetaOpt e = some md) (hs : entrySlugMatches e s = false) :
    mdSlugIs md s = false := by
  have hlk := mkMetaOpt_slug hm
  unfold entrySlugMatches at hs
  rw [hlk] at hs
  unfold mdSlugIs
  generalize hms : md.slug = v at hs ⊢
  cases v <;> simp_all

/-- When every item reconstructs, the loop visits them all. -/
theorem collectMetas_all_some (l : List Entry)
    (h : ∀ e ∈ l, (mkMetaOpt e).isSome = true) :
    collectMetas l = l.filterMap mkMetaOpt := by
  induction l with
  | nil => rfl
  | cons e rest ih =>
      have he := h e (by simp)
      cases hm : mkMetaOpt e with
      | none => rw [hm] at he; simp at he
      | some md =>
          rw [List.filterMap_cons, hm]
          simp only [collectMetas, hm]
          rw [ih (fun x hx => h x (List.mem_cons_of_mem _ hx))]

/-- Claim C4: writing a manifest entry for an `ArticleMeta` and reading
the manifest back through `write_index`'s reconstruction yields exactly
one record for that slug, carrying the same title, slug, description,
date and tags; `hero_image` and `cover_credit` come back at their
defaults (they are not part of the round-trip).  The hypothesis says
the pre-existing manifest entries all reconstruct (otherwise the
reading loop would abort before reaching the freshly appended entry —
see claim C2). -/
theorem claim_C4_manifest_roundtrip (st : OutDir) (m : ArticleMeta)
    (h : ∀ e ∈ manifestItems st.manifest, (mkMetaOpt e).isSome = true) :
    (readManifestPhase (write_manifest st m).manifest).filter
        (fun md => mdSlugIs md m.slug) = [projectMetaD m] := by
  have hman : (write_manifest st m).manifest
      = some (some (upsertManifest (manifestItems st.manifest) m)) := rfl
  rw [hman]
  show (collectMetas (upsertManifest (manifestItems st.manifest) m)).filter _ = _
  have hall : ∀ e ∈ upsertManifest (manifestItems st.manifest) m,
      (mkMetaOpt e).isSome = true := by
    intro e he
    unfold upsertManifest at he
    rcases List.mem_append.mp he with h1 | h2
    · exact h e (List.mem_of_mem_filter h1)
    · simp at h2
      subst h2
      rw [mkMetaOpt_projectEntry]
      rfl
  rw [collectMetas_all_some _ hall]
  unfold upsertManifest
  rw [List.filterMap_append, List.filter_append]
  have hleft : (((manifestItems st.manifest).filter
        (fun i => !(entrySlugMatches i m.slug))).filterMap mkMetaOpt).filter
      (fun md => mdSlugIs md m.slug) = [] := by
    apply List.filter_eq_nil_iff.mpr
    intro md hmd
    obtain ⟨e, he, hme⟩ := List.mem_filterMap.mp hmd
    have hkept : entrySlugMatches e m.slug = false := by
      have := List.mem_filter.mp he
      simpa using this.2
    simp [mdSlugIs_false_of_kept hme hkept]
  rw [hleft]
  have hright : [projectEntry m].filterMap mkMetaOpt = [projectMetaD m] := by
    rw [List.filterMap_cons, mkMetaOpt_projectEntry]
    rfl
  rw [hright]
  simp [List.filter, mdSlugIs_projectMetaD]

def metaGamma : ArticleMeta :=
  { title := "Gamma", slug := "gamma", description := some "a piece",
    date := some "2024-05-01", tags := ["a", "b"],
    hero_image := some "hero.png", cover_credit := some "someone" }

/-- Witness for claim C4: a concrete `ArticleMeta` with every optional
field populated round-trips through an empty output directory. -/
theorem claim_C4_manifest_roundtrip_witness :
    (readManifestPhase (write_manifest emptyOutDir metaGamma).manifest).filter
        (fun md => mdSlugIs md metaGamma.slug) = [projectMetaD metaGamma] :=
  claim_C4_manifest_roundtrip emptyOutDir metaGamma (by intro e he; simp [manifestItems, emptyOutDir] at he)

/-- Claim C2 fails on the code: with a parsed manifest of two entries
where only the first is malformed, the well-formed second entry is NOT
reconstructed — the single `try` around the whole loop (lines 163-169)
aborts reconstruction at the first failure, so the phase returns
nothing at all, even though the second entry reconstructs on its own
(first conjunct). -/
theorem claim_C2_counterexample :
    (mkMetaOpt [("title", Val.str "Good"), ("slug", Val.str "good")]).isSome = true
  ∧ readManifestPhase (some (some [[("bogus", Val.int 1)],
      [("title", Val.str "Good"), ("slug", Val.str "good")]])) = [] := by
  exact ⟨rfl, rfl⟩

/-- Claim C2 as amended: when the manifest exists and parses,
reconstruction proceeds in order and stops at the FIRST entry that
fails to reconstruct — the entries before the failure are kept, the
failing entry and every entry after it are skipped, and the run does
not fail (the exception is caught, only a warning is printed).  Only
when no entry fails are all entries reconstructed. -/
theorem claim_C2_amended (pre : List Entry) (bad : Entry) (rest : List Entry)
    (hpre : ∀ e ∈ pre, (mkMetaOpt e).isSome = true)
    (hbad : mkMetaOpt bad = none) :
    readManifestPhase (some (some (pre ++ bad :: rest)))
      = pre.filterMap mkMetaOpt := by
  show collectMetas (pre ++ bad :: rest) = pre.filterMap mkMetaOpt
  induction pre with
  | nil =>
      simp only [List.nil_append, List.filterMap_nil, collectMetas, hbad]
  | cons e tl ih =>
      have he := hpre e (by simp)
      cases hm : mkMetaOpt e with
      | none => rw [hm] at he; simp at he
      | some md =>
          rw [List.cons_append, List.filterMap_cons, hm]
          simp only [collectMetas, hm]
          rw [ih (fun x hx => hpre x (List.mem_cons_of_mem _ hx))]

/-- Witness for the amended claim C2: one good entry, then a malformed
one, then another good one — only the first survives. -/
theorem claim_C2_amended_witness :
    readManifestPhase (some (some ([[("title", Val.str "A"), ("slug", Val.str "a")]]
        ++ [("bogus", Val.int 1)] :: [[("title", Val.str "B"), ("slug", Val.str "b")]])))
      = [[("title", Val.str "A"), ("slug", Val.str "a")]].filterMap mkMetaOpt :=
  claim_C2_amended [[("title", Val.str "A"), ("slug", Val.str "a")]]
    [("bogus", Val.int 1)] [[("title", Val.str "B"), ("slug", Val.str "b")]]
    (by intro e he; simp at he; subst he; rfl) rfl

/-- A minimal valid parsed document: an article with just a title and a
slug. -/
def sampleRawDoc : Val :=
  Val.dict [("article", Val.dict [("title", Val.str "T"), ("slug", Val.str "t")])]

/-- The loader's result on `sampleRawDoc`. -/
def sampleLoaded : ArticleDataD :=
  { article := { title := Val.str "T", slug := Val.str "t" },
    reviews := [], gallery_dir := Val.null }

/-- Claim C1 fails on the code: `"article.txt"` has none of the known
structured-data extensions (first three conjuncts), yet
`load_article_data` does not fail with `UnsupportedFormat` — the
extension dispatch has no error branch, so the path is handed to the
JSON parser and, when that parser yields a well-formed document, the
load succeeds outright (last conjunct). -/
theorem claim_C1_counterexample :
    strEndsWith (strLower "article.txt") ".yaml" = false
  ∧ strEndsWith (strLower "article.txt") ".yml" = false
  ∧ strEndsWith (strLower "article.txt") ".json" = false
  ∧ load_article_data_file (fun _ => Except.error "yaml parser was not called")
      (fun _ => Except.ok sampleRawDoc) "article.txt" "arbitrary file content"
      = Except.ok sampleLoaded := by
  exact ⟨rfl, rfl, rfl, rfl⟩

/-- Claim C1 as amended: for every input file path whose lowercased
name does not end in `.yaml` or `.yml` — whether its extension is
`.json` or anything else, such as `.txt` — `load_article_data` raises
no `UnsupportedFormat` error; it dispatches the file to the JSON
parser and attempts to parse it, so the outcome is entirely that of
JSON parsing followed by field validation. -/
theorem claim_C1_amended (parseYamlText parseJsonText : String → Except String Val)
    (path content : String)
    (h : (strEndsWith (strLower path) ".yaml" || strEndsWith (strLower path) ".yml") = false) :
    chooseParserKind path = ParserKind.json
  ∧ load_article_data_file parseYamlText parseJsonText path content
      = (match parseJsonText content with
        | Except.ok raw => load_article_data raw
        | Except.error msg => Except.error (LoadErr.parseError msg)) := by
  have hk : chooseParserKind path = ParserKind.json := by
    unfold chooseParserKind
    rw [h]
    rfl
  refine ⟨hk, ?_⟩
  unfold load_article_data_file
  rw [hk]
  cases parseJsonText content <;> rfl

/-- Witness for the amended claim C1 at the path `"article.txt"`. -/
theorem claim_C1_amended_witness :
    chooseParserKind "article.txt" = ParserKind.json
  ∧ load_article_data_file (fun _ => Except.error "yaml parser was not called")
      (fun _ => Except.ok sampleRawDoc) "article.txt" "arbitrary file content"
      = (match (fun (_ : String) => Except.ok sampleRawDoc) "arbitrary file content" with
        | Except.ok raw => load_article_data raw
        | Except.error msg => Except.error (LoadErr.parseError msg)) :=
  claim_C1_amended (fun _ => Except.error "yaml parser was not called")
    (fun _ => Except.ok sampleRawDoc) "article.txt" "arbitrary file content" rfl

/-! ### Lemmas about `setKey` and the normalization pipeline -/

theorem lookup_setKey_ne (e : Entry) (k k' : String) (v : Val) (h : k' ≠ k) :
    (setKey e k v).lookup k' = e.lookup k' := by
  induction e with
  | nil => rfl
  | cons kv rest ih =>
      show List.lookup k' ((if kv.1 = k then (k, v) else kv) :: setKey rest k v)
          = List.lookup k' (kv :: rest)
      by_cases hk : kv.1 = k
      · rw [if_pos hk]
        simp only [List.lookup]
        rw [show (k' == k) = false from beq_eq_false_iff_ne.mpr h,
          show (k' == kv.1) = false from beq_eq_false_iff_ne.mpr (by rw [hk]; exact h)]
        exact ih
      · rw [if_neg hk]
        simp only [List.lookup]
        cases hbeq : (k' == kv.1) <;> simp [ih]

theorem lookup_setKey_self (e : Entry) (k : String) (v w : Val)
    (h : e.lookup k = some w) : (setKey e k v).lookup k = some v := by
  induction e with
  | nil => simp [List.lookup] at h
  | cons kv rest ih =>
      show List.lookup k ((if kv.1 = k then (k, v) else kv) :: setKey rest k v) = some v
      by_cases hk : kv.1 = k
      · rw [if_pos hk]
        simp [List.lookup]
      · rw [if_neg hk]
        simp only [List.lookup]
        have hbeq : (k == kv.1) = false := beq_eq_false_iff_ne.mpr (fun hc => hk hc.symm)
        rw [hbeq]
        simp only [List.lookup, hbeq] at h
        exact ih h

theorem mem_setKey {e : Entry} {k : String} {v : Val} {kv' : String × Val}
    (h : kv' ∈ setKey e k v) : ∃ kv ∈ e, kv'.1 = kv.1 := by
  unfold setKey at h
  obtain ⟨kv, hkv, heq⟩ := List.mem_map.mp h
  by_cases hk : kv.1 = k
  · rw [if_pos hk] at heq
    exact ⟨kv, hkv, by rw [← heq, hk]⟩
  · rw [if_neg hk] at heq
    exact ⟨kv, hkv, by rw [← heq]⟩

/-- Shape of one normalization step: the entry is either unchanged or a
single key got a new value. -/
def StepOf (e e' : Entry) (k0 : String) : Prop :=
  e' = e ∨ ∃ v, e' = setKey e k0 v

theorem StepOf.lookup_ne {e e' : Entry} {k0 : String} (h : StepOf e e' k0)
    (k : String) (hk : k ≠ k0) : e'.lookup k = e.lookup k := by
  rcases h with rfl | ⟨v, rfl⟩
  · rfl
  · exact lookup_setKey_ne e k0 k v hk

theorem StepOf.keys {e e' : Entry} {k0 : String} (h : StepOf e e' k0) :
    ∀ kv' ∈ e', ∃ kv ∈ e, kv'.1 = kv.1 := by
  rcases h with rfl | ⟨v, rfl⟩
  · exact fun kv' h' => ⟨kv', h', rfl⟩
  · exact fun kv' h' => mem_setKey h'

/-- Whether the value under a key, if any, survives the string-list
step: absent, `None`, or iterable. -/
def keyIterOk (e : Entry) (k : String) : Bool :=
  match e.lookup k with
  | none => true
  | some v => isNone v || (pyIter v).isOk

theorem dateStep_stepOf (e : Entry) : StepOf e (dateStepEntry e) "date" := by
  unfold dateStepEntry
  cases e.lookup "date" with
  | none => exact Or.inl rfl
  | some dv =>
      show StepOf e (if isNone dv = true then e
        else setKey e "date" (Val.str (pyStr (toStrIfDate dv)))) "date"
      by_cases hn : isNone dv = true
      · rw [if_pos hn]
        exact Or.inl rfl
      · rw [if_neg hn]
        exact Or.inr ⟨_, rfl⟩

theorem ratingStep_stepOf (e : Entry) : StepOf e (ratingStepEntry e) "rating" := by
  unfold ratingStepEntry
  cases e.lookup "rating" with
  | none => exact Or.inl rfl
  | some rv =>
      show StepOf e (if isNone rv = true then e
        else setKey e "rating" (match pyFloat rv with
          | some q => Val.float q
          | none => Val.null)) "rating"
      by_cases hn : isNone rv = true
      · rw [if_pos hn]
        exact Or.inl rfl
      · rw [if_neg hn]
        exact Or.inr ⟨_, rfl⟩

/-- When the value under the key is absent, `None`, or iterable, the
string-list step succeeds and is a one-key update. -/
theorem strListStep_ok (k : String) (e : Entry) (h : keyIterOk e k = true) :
    ∃ e', strListStep k e = Except.ok e' ∧ StepOf e e' k := by
  unfold keyIterOk at h
  unfold strListStep
  cases hl : e.lookup k with
  | none => exact ⟨e, rfl, Or.inl rfl⟩
  | some v =>
      rw [hl] at h
      show ∃ e', (if isNone v = true then pure e
        else do
          let xs ← pyIter v
          pure (setKey e k (Val.list (xs.map (fun x => Val.str (pyStr x)))))) = Except.ok e'
        ∧ StepOf e e' k
      simp only [] at h
      by_cases hn : isNone v = true
      · rw [if_pos hn]
        exact ⟨e, rfl, Or.inl rfl⟩
      · rw [if_neg hn]
        rw [Bool.not_eq_true] at hn
        rw [hn] at h
        simp only [Bool.false_or] at h
        obtain ⟨xs, hxs⟩ : ∃ xs, pyIter v = Except.ok xs := by
          cases hp : pyIter v with
          | ok xs => exact ⟨xs, rfl⟩
          | error er => rw [hp] at h; simp [Except.isOk, Except.toBool] at h
        rw [hxs]
        exact ⟨_, rfl, Or.inr ⟨_, rfl⟩⟩

/-- `load_article_data` on a parsed mapping, with the do-chain spelled
out. -/
theorem load_article_data_dict_eq (kvs : Entry) :
    load_article_data (Val.dict kvs)
      = getArticleVal kvs >>= fun artv =>
        asDict artv >>= fun art =>
        normalizeArticleEntry art >>= fun meta =>
        pyIter ((kvs.lookup "reviews").getD (Val.list [])) >>= fun revVals =>
        revVals.mapM normalizeReview >>= fun reviews =>
        pure { article := meta, reviews := reviews,
               gallery_dir := (kvs.lookup "gallery_dir").getD Val.null } := by
  unfold load_article_data
  rfl

theorem getArticleVal_none (kvs : Entry) (h : kvs.lookup "article" = none) :
    getArticleVal kvs = Except.error (LoadErr.missingField "article") := by
  unfold getArticleVal
  rw [h]

theorem getArticleVal_some (kvs : Entry) (v : Val)
    (h : kvs.lookup "article" = some v) : getArticleVal kvs = Except.ok v := by
  unfold getArticleVal
  rw [h]

/-- When the `article` value is a mapping, the load reduces to
normalizing it and then the reviews. -/
theorem load_article_data_of_art (kvs art : Entry)
    (hart : kvs.lookup "article" = some (Val.dict art)) :
    load_article_data (Val.dict kvs)
      = normalizeArticleEntry art >>= fun meta =>
        pyIter ((kvs.lookup "reviews").getD (Val.list [])) >>= fun revVals =>
        revVals.mapM normalizeReview >>= fun reviews =>
        pure { article := meta, reviews := reviews,
               gallery_dir := (kvs.lookup "gallery_dir").getD Val.null } := by
  rw [load_article_data_dict_eq, getArticleVal_some kvs (Val.dict art) hart]
  rfl

/-- When the article mapping has only known keys and a well-behaved
`tags` value but lacks `title` or `slug`, its normalization fails with
the corresponding missing-field error. -/
theorem normalizeArticleEntry_missing (art : Entry)
    (hkeys : ∀ kv ∈ art, kv.1 ∈ metaFieldNames)
    (htags : keyIterOk art "tags" = true)
    (hmiss : art.lookup "title" = none ∨ art.lookup "slug" = none) :
    normalizeArticleEntry art = Except.error (LoadErr.missingField "title")
  ∨ normalizeArticleEntry art = Except.error (LoadErr.missingField "slug") := by
  have step1 := dateStep_stepOf art
  have htags1 : keyIterOk (dateStepEntry art) "tags" = true := by
    unfold keyIterOk at htags ⊢
    rw [step1.lookup_ne "tags" (by decide)]
    exact htags
  obtain ⟨art2, hstep, step2⟩ := strListStep_ok "tags" (dateStepEntry art) htags1
  have heq : normalizeArticleEntry art = mkMeta art2 := by
    show (strListStep "tags" (dateStepEntry art) >>= fun a => mkMeta a) = mkMeta art2
    rw [hstep]
    rfl
  rw [heq]
  have hkeys2 : ∀ kv ∈ art2, kv.1 ∈ metaFieldNames := by
    intro kv' h'
    obtain ⟨kv1, hkv1, he1⟩ := step2.keys kv' h'
    obtain ⟨kv0, hkv0, he0⟩ := step1.keys kv1 hkv1
    rw [he1, he0]
    exact hkeys kv0 hkv0
  have hfind : art2.find? (fun kv => !(metaFieldNames.contains kv.1)) = none := by
    apply List.find?_eq_none.mpr
    intro kv hkv
    have hmem := hkeys2 kv hkv
    simp [hmem]
  have htitle2 : art2.lookup "title" = art.lookup "title" := by
    rw [step2.lookup_ne "title" (by decide), step1.lookup_ne "title" (by decide)]
  have hslug2 : art2.lookup "slug" = art.lookup "slug" := by
    rw [step2.lookup_ne "slug" (by decide), step1.lookup_ne "slug" (by decide)]
  unfold mkMeta
  rw [hfind]
  rcases hmiss with hm | hm
  · left
    rw [htitle2, hm]
  · cases ht : art2.lookup "title" with
    | none => left; rfl
    | some t =>
        right
        rw [hslug2, hm]

/-- Claim C3: for every parsed input tree (a mapping), the load fails
with a `MissingField` error when the top-level `article` key is absent
(first conjunct), and when the article mapping — with recognized keys
and a well-behaved `tags` value, so that no other failure fires first —
lacks the required `title` or `slug` field (second conjunct). -/
theorem claim_C3_missing_fields :
    (∀ kvs : Entry, kvs.lookup "article" = none →
        load_article_data (Val.dict kvs) = Except.error (LoadErr.missingField "article"))
  ∧ (∀ kvs art : Entry,
        kvs.lookup "article" = some (Val.dict art) →
        (∀ kv ∈ art, kv.1 ∈ metaFieldNames) →
        keyIterOk art "tags" = true →
        (art.lookup "title" = none ∨ art.lookup "slug" = none) →
        (load_article_data (Val.dict kvs) = Except.error (LoadErr.missingField "title")
          ∨ load_article_data (Val.dict kvs) = Except.error (LoadErr.missingField "slug"))) := by
  constructor
  · intro kvs h
    rw [load_article_data_dict_eq, getArticleVal_none kvs h]
    rfl
  · intro kvs art hart hkeys htags hmiss
    rcases normalizeArticleEntry_missing art hkeys htags hmiss with hna | hna
    · left
      rw [load_article_data_of_art kvs art hart, hna]
      rfl
    · right
      rw [load_article_data_of_art kvs art hart, hna]
      rfl

/-- Witness for claim C3: a tree with no `article` key fails with
`MissingField "article"`; a tree whose article mapping has a title but
no slug fails with `MissingField "slug"`. -/
theorem claim_C3_missing_fields_witness :
    load_article_data (Val.dict [("reviews", Val.list [])])
      = Except.error (LoadErr.missingField "article")
  ∧ (load_article_data (Val.dict [("article", Val.dict [("title", Val.str "T")])])
      = Except.error (LoadErr.missingField "title")
    ∨ load_article_data (Val.dict [("article", Val.dict [("title", Val.str "T")])])
      = Except.error (LoadErr.missingField "slug")) :=
  ⟨claim_C3_missing_fields.1 [("reviews", Val.list [])] rfl,
   claim_C3_missing_fields.2 [("article", Val.dict [("title", Val.str "T")])]
     [("title", Val.str "T")] rfl
     (by intro kv hkv; simp at hkv; rw [hkv]; decide)
     rfl (Or.inr rfl)⟩

theorem exceptOkBind {α β ε : Type} (a : α) (f : α → Except ε β) :
    (Except.ok a >>= f : Except ε β) = f a := rfl

/-- Claim C9: for a review mapping that is otherwise well-formed (known
keys, an `author`, iterable-or-absent `pros`/`cons`), normalization
never fails because of the `rating` value: whatever value sits under
`rating` (other than `None`), the result is `Except.ok`, with the
rating stored as the coerced float when `float()` succeeds and as
`None` — silently — when it does not. -/
theorem claim_C9_lenient_rating (r : Entry) (v : Val)
    (hkeys : ∀ kv ∈ r, kv.1 ∈ reviewFieldNames)
    (hauthor : (r.lookup "author").isSome = true)
    (hpros : keyIterOk r "pros" = true)
    (hcons : keyIterOk r "cons" = true)
    (hv : r.lookup "rating" = some v) (hnn : isNone v = false) :
    ∃ rd : ReviewD, normalizeReview (Val.dict r) = Except.ok rd
      ∧ rd.rating = (match pyFloat v with
          | some q => Val.float q
          | none => Val.null) := by
  have step1 : StepOf r (dateStepEntry r) "date" := dateStep_stepOf r
  have hv1 : (dateStepEntry r).lookup "rating" = some v := by
    rw [step1.lookup_ne "rating" (by decide)]
    exact hv
  have hr2 : ratingStepEntry (dateStepEntry r)
      = setKey (dateStepEntry r) "rating" (match pyFloat v with
          | some q => Val.float q
          | none => Val.null) := by
    unfold ratingStepEntry
    rw [hv1]
    simp [hnn]
  have step2 : StepOf (dateStepEntry r) (ratingStepEntry (dateStepEntry r)) "rating" :=
    ratingStep_stepOf (dateStepEntry r)
  have hpros2 : keyIterOk (ratingStepEntry (dateStepEntry r)) "pros" = true := by
    unfold keyIterOk at hpros ⊢
    rw [step2.lookup_ne "pros" (by decide), step1.lookup_ne "pros" (by decide)]
    exact hpros
  obtain ⟨r3, hstep3, step3⟩ := strListStep_ok "pros" (ratingStepEntry (dateStepEntry r)) hpros2
  have hcons3 : keyIterOk r3 "cons" = true := by
    unfold keyIterOk at hcons ⊢
    rw [step3.lookup_ne "cons" (by decide), step2.lookup_ne "cons" (by decide),
      step1.lookup_ne "cons" (by decide)]
    exact hcons
  obtain ⟨r4, hstep4, step4⟩ := strListStep_ok "cons" r3 hcons3
  have heq : normalizeReview (Val.dict r)
      = (strListStep "pros" (ratingStepEntry (dateStepEntry r)) >>= fun ra =>
          strListStep "cons" ra >>= fun rb => mkReview rb) := by
    unfold normalizeReview
    rfl
  rw [heq, hstep3, exceptOkBind, hstep4, exceptOkBind]
  have hkeys4 : ∀ kv ∈ r4, kv.1 ∈ reviewFieldNames := by
    intro kv4 h4
    obtain ⟨kv3, hkv3, he3⟩ := step4.keys kv4 h4
    obtain ⟨kv2, hkv2, he2⟩ := step3.keys kv3 hkv3
    obtain ⟨kv1, hkv1, he1⟩ := step2.keys kv2 hkv2
    obtain ⟨kv0, hkv0, he0⟩ := step1.keys kv1 hkv1
    rw [he3, he2, he1, he0]
    exact hkeys kv0 hkv0
  have hfind4 : r4.find? (fun kv => !(reviewFieldNames.contains kv.1)) = none := by
    apply List.find?_eq_none.mpr
    intro kv hkv
    have hmem := hkeys4 kv hkv
    simp [hmem]
  have hauth4 : r4.lookup "author" = r.lookup "author" := by
    rw [step4.lookup_ne "author" (by decide), step3.lookup_ne "author" (by decide),
      step2.lookup_ne "author" (by decide), step1.lookup_ne "author" (by decide)]
  have hrat4 : r4.lookup "rating" = some (match pyFloat v with
      | some q => Val.float q
      | none => Val.null) := by
    rw [step4.lookup_ne "rating" (by decide), step3.lookup_ne "rating" (by decide), hr2]
    exact lookup_setKey_self (dateStepEntry r) "rating" _ v hv1
  obtain ⟨a, ha⟩ : ∃ a, r.lookup "author" = some a := by
    cases hl : r.lookup "author" with
    | none => rw [hl] at hauthor; simp at hauthor
    | some a => exact ⟨a, rfl⟩
  unfold mkReview
  rw [hfind4, hauth4, ha, hrat4]
  exact ⟨_, rfl, by simp⟩

/-- Witness for claim C9: the rating `"great"` normalizes to an absent
rating with no error; a numeric rating (the parsed float 9/2)
normalizes to that float. -/
theorem claim_C9_lenient_rating_witness :
    (∃ rd : ReviewD, normalizeReview (Val.dict [("author", Val.str "Ana"),
        ("rating", Val.str "great")]) = Except.ok rd ∧ rd.rating = Val.null)
  ∧ (∃ rd : ReviewD, normalizeReview (Val.dict [("author", Val.str "Ana"),
        ("rating", Val.float ((9 : Rat)/2))]) = Except.ok rd
      ∧ rd.rating = Val.float ((9 : Rat)/2)) := by
  constructor
  · obtain ⟨rd, h1, h2⟩ := claim_C9_lenient_rating
      [("author", Val.str "Ana"), ("rating", Val.str "great")] (Val.str "great")
      (by decide) rfl rfl rfl rfl rfl
    refine ⟨rd, h1, ?_⟩
    rw [h2]
    rw [show pyFloat (Val.str "great") = none from by decide]
  · obtain ⟨rd, h1, h2⟩ := claim_C9_lenient_rating
      [("author", Val.str "Ana"), ("rating", Val.float ((9 : Rat)/2))]
      (Val.float ((9 : Rat)/2))
      (by decide) rfl rfl rfl rfl rfl
    refine ⟨rd, h1, ?_⟩
    rw [h2]
    rfl

/-! ### Image resolution facts -/

theorem mem_splitParts_ne_empty {p : String} {s : String}
    (h : s ∈ splitParts p) : s ≠ "" := by
  unfold splitParts at h
  have := (List.mem_filter.mp h).2
  simp at this
  exact this.1

theorem mem_foldl_normParts (l : List String) (acc : List String) :
    ∀ x ∈ l.foldl (fun acc part =>
      if part = ".." then acc.dropLast else acc ++ [part]) acc, x ∈ acc ∨ x ∈ l := by
  induction l generalizing acc with
  | nil => exact fun x hx => Or.inl hx
  | cons p tl ih =>
      intro x hx
      simp only [List.foldl_cons] at hx
      rcases ih _ x hx with hacc | htl
      · by_cases hp : p = ".."
        · rw [if_pos hp] at hacc
          exact Or.inl (List.dropLast_subset _ hacc)
        · rw [if_neg hp] at hacc
          rcases List.mem_append.mp hacc with h1 | h2
          · exact Or.inl h1
          · simp at h2
            subst h2
            exact Or.inr (List.mem_cons_self _ _)
      · exact Or.inr (List.mem_cons_of_mem _ htl)

theorem mem_normParts {l : List String} {x : String}
    (h : x ∈ normParts l) : x ∈ l := by
  unfold normParts at h
  rcases mem_foldl_normParts l [] x h with h0 | h1
  · simp at h0
  · exact h1

theorem joinSlash_ne_empty {x : String} (xs : List String) (hx : x ≠ "") :
    joinSlash (x :: xs) ≠ "" := by
  cases xs with
  | nil => exact hx
  | cons y ys =>
      show x ++ "/" ++ joinSlash (y :: ys) ≠ ""
      intro hcontra
      have hlen := congrArg String.length hcontra
      simp [String.length_append] at hlen
      exact absurd hlen.1.2 (by decide)

theorem osRelpath_ne_empty (path strt : String) : osRelpath path strt ≠ "" := by
  have hall : ∀ x ∈ List.replicate
      ((absParts strt).length - commonPrefixLen (absParts strt) (absParts path)) ".."
      ++ (absParts path).drop (commonPrefixLen (absParts strt) (absParts path)), x ≠ "" := by
    intro x hx
    rcases List.mem_append.mp hx with hrep | hdrop
    · rw [List.eq_of_mem_replicate hrep]
      decide
    · exact mem_splitParts_ne_empty (mem_normParts (List.drop_subset _ _ hdrop))
  show (match List.replicate
      ((absParts strt).length - commonPrefixLen (absParts strt) (absParts path)) ".."
      ++ (absParts path).drop (commonPrefixLen (absParts strt) (absParts path)) with
    | [] => "."
    | x :: xs => joinSlash (x :: xs)) ≠ ""
  generalize hrel : List.replicate
      ((absParts strt).length - commonPrefixLen (absParts strt) (absParts path)) ".."
      ++ (absParts path).drop (commonPrefixLen (absParts strt) (absParts path)) = rel at hall ⊢
  cases rel with
  | nil => decide
  | cons x xs => exact joinSlash_ne_empty xs (hall x (List.mem_cons_self _ _))

theorem resolveReviewImages_cons_kept (fs : FS) (root p : String) (tl : List String)
    (hp : p ≠ "") (hex : fs.pathExists (osJoin root p) = true) :
    resolveReviewImages fs root (p :: tl)
      = (osRelpath (osJoin root p) root :: (resolveReviewImages fs root tl).1,
         (resolveReviewImages fs root tl).2) := by
  simp [resolveReviewImages, resolve_image, hp, hex, osRelpath_ne_empty]

theorem resolveReviewImages_cons_missing (fs : FS) (root p : String) (tl : List String)
    (hp : p ≠ "") (hex : fs.pathExists (osJoin root p) = false) :
    resolveReviewImages fs root (p :: tl)
      = ((resolveReviewImages fs root tl).1,
         ("missing image " ++ osJoin root p) :: (resolveReviewImages fs root tl).2) := by
  simp [resolveReviewImages, resolve_image, hp, hex]

/-- The kept component of the review-image comprehension: exactly the
truthy paths whose joined form exists, in order, each as its
root-relative resolution. -/
theorem resolveReviewImages_fst (fs : FS) (root : String) (ps : List String) :
    (resolveReviewImages fs root ps).1
      = (ps.filter (fun p => p ≠ "" && fs.pathExists (osJoin root p))).map
          (fun p => osRelpath (osJoin root p) root) := by
  induction ps with
  | nil => rfl
  | cons p tl ih =>
      by_cases hp : p = ""
      · subst hp
        have hstep : resolveReviewImages fs root ("" :: tl)
            = resolveReviewImages fs root tl := rfl
        rw [hstep, ih]
        simp [List.filter_cons]
      · by_cases hex : fs.pathExists (osJoin root p) = true
        · rw [resolveReviewImages_cons_kept fs root p tl hp hex]
          simp [List.filter_cons, hp, hex, ih]
        · rw [Bool.not_eq_true] at hex
          rw [resolveReviewImages_cons_missing fs root p tl hp hex]
          simp [List.filter_cons, hp, hex, ih]

/-- The warnings of the review-image comprehension: one per truthy,
missing path, in order. -/
theorem resolveReviewImages_snd (fs : FS) (root : String) (ps : List String) :
    (resolveReviewImages fs root ps).2
      = (ps.filter (fun p => p ≠ "" && !(fs.pathExists (osJoin root p)))).map
          (fun p => "missing image " ++ osJoin root p) := by
  induction ps with
  | nil => rfl
  | cons p tl ih =>
      by_cases hp : p = ""
      · subst hp
        have hstep : resolveReviewImages fs root ("" :: tl)
            = resolveReviewImages fs root tl := rfl
        rw [hstep, ih]
        simp [List.filter_cons]
      · by_cases hex : fs.pathExists (osJoin root p) = true
        · rw [resolveReviewImages_cons_kept fs root p tl hp hex]
          simp [List.filter_cons, hp, hex, ih]
        · rw [Bool.not_eq_true] at hex
          rw [resolveReviewImages_cons_missing fs root p tl hp hex]
          simp [List.filter_cons, hp, hex, ih]

theorem render_article_reviews (fs : FS) (assets_dir images_root : String)
    (data : ArticleData) :
    (render_article fs assets_dir images_root data).2.reviews
      = data.reviews.map (fun rv =>
          { rv with images := (resolveReviewImages fs images_root rv.images).1 }) := by
  unfold render_article
  simp [List.map_map]

theorem render_article_warnings (fs : FS) (assets_dir images_root : String)
    (data : ArticleData) :
    (render_article fs assets_dir images_root data).1.warnings
      = (resolve_image fs images_root data.article.hero_image).2
        ++ (data.reviews.map (fun rv =>
            (resolveReviewImages fs images_root rv.images).2)).flatten := by
  unfold render_article
  simp [List.map_map]
  rfl

/-- Claim C7: rendering resolves each review's declared image list
against the images root, keeping — in their original order — exactly
the (non-empty) paths whose joined file exists, each as its
root-relative resolution (first conjunct); the reviews handed to the
template are those same resolved reviews (second conjunct); a missing
or falsy hero image resolves to `none` (third conjunct); and every
dropped non-empty review path produces a warning rather than a failure
(fourth conjunct — `render_article` is a total function, so image
resolution never fails the rendering). -/
theorem claim_C7_review_image_filtering (fs : FS) (assets_dir images_root : String)
    (data : ArticleData) :
    ((render_article fs assets_dir images_root data).2.reviews.map Review.images
      = data.reviews.map (fun rv =>
          (rv.images.filter (fun p => p ≠ "" && fs.pathExists (osJoin images_root p))).map
            (fun p => osRelpath (osJoin images_root p) images_root)))
  ∧ ((render_article fs assets_dir images_root data).1.reviews
      = (render_article fs assets_dir images_root data).2.reviews)
  ∧ (∀ h : String, data.article.hero_image = some h →
      (h = "" ∨ fs.pathExists (osJoin images_root h) = false) →
      (render_article fs assets_dir images_root data).1.hero_image = none)
  ∧ (∀ rv ∈ data.reviews, ∀ p ∈ rv.images, p ≠ "" →
      fs.pathExists (osJoin images_root p) = false →
      ("missing image " ++ osJoin images_root p)
        ∈ (render_article fs assets_dir images_root data).1.warnings) := by
  refine ⟨?_, ?_, ?_, ?_⟩
  · rw [render_article_reviews]
    rw [List.map_map]
    apply List.map_congr_left
    intro rv _
    show (resolveReviewImages fs images_root rv.images).1 = _
    exact resolveReviewImages_fst fs images_root rv.images
  · rfl
  · intro h hh hmiss
    show (resolve_image fs images_root data.article.hero_image).1 = none
    rw [hh]
    rcases hmiss with he | hne
    · subst he
      rfl
    · by_cases he : h = ""
      · subst he
        rfl
      · simp [resolve_image, he, hne]
  · intro rv hrv p hp hpne hmiss
    rw [render_article_warnings]
    apply List.mem_append_right
    apply List.mem_flatten.mpr
    refine ⟨(resolveReviewImages fs images_root rv.images).2, ?_, ?_⟩
    · exact List.mem_map.mpr ⟨rv, hrv, rfl⟩
    · rw [resolveReviewImages_snd]
      apply List.mem_map.mpr
      refine ⟨p, ?_, rfl⟩
      apply List.mem_filter.mpr
      exact ⟨hp, by simp [hpne, hmiss]⟩

/-- A filesystem where only `images/a.jpg` exists and `images/g` is a
directory listing `b.png`, `a.jpg`, `note.txt` (that filesystem
order). -/
def fsImages : FS :=
  { pathExists := fun p => p == "images/a.jpg",
    isDir := fun p => p == "images/g",
    listdir := fun p => if p == "images/g" then ["b.png", "a.jpg", "note.txt"] else [],
    readFile := fun _ => "" }

def dataExample : ArticleData :=
  { article := { title := "T", slug := "t", hero_image := some "hero.png" },
    reviews := [{ author := "Ana", images := ["a.jpg", "missing.png"] }],
    gallery_dir := none }

/-- Witness for claim C7: with only `images/a.jpg` present, the review
declaring `["a.jpg", "missing.png"]` resolves to exactly `["a.jpg"]`,
the missing hero image resolves to `none`, and the dropped path is
warned about. -/
theorem claim_C7_review_image_filtering_witness :
    ((render_article fsImages "assets" "images" dataExample).2.reviews.map Review.images
        = [["a.jpg"]])
  ∧ (render_article fsImages "assets" "images" dataExample).1.hero_image = none
  ∧ ("missing image " ++ "images/missing.png")
      ∈ (render_article fsImages "assets" "images" dataExample).1.warnings := by
  refine ⟨?_, ?_, ?_⟩
  · rw [(claim_C7_review_image_filtering fsImages "assets" "images" dataExample).1]
    rfl
  · exact (claim_C7_review_image_filtering fsImages "assets" "images" dataExample).2.2.1
      "hero.png" rfl (Or.inr rfl)
  · exact (claim_C7_review_image_filtering fsImages "assets" "images" dataExample).2.2.2
      { author := "Ana", images := ["a.jpg", "missing.png"] }
      (List.mem_cons_self _ _) "missing.png" (by simp) (by decide) rfl

/-! ### Gallery enumeration facts -/

theorem listCharLe_cons_iff (a b : Char) (atl btl : List Char) :
    listCharLe (a :: atl) (b :: btl) = true
      ↔ (a.toNat < b.toNat ∨ (a.toNat = b.toNat ∧ listCharLe atl btl = true)) := by
  show (if a.toNat < b.toNat then true
    else if b.toNat < a.toNat then false else listCharLe atl btl) = true ↔ _
  by_cases h1 : a.toNat < b.toNat
  · rw [if_pos h1]
    simp [h1]
  · rw [if_neg h1]
    by_cases h2 : b.toNat < a.toNat
    · rw [if_pos h2]
      constructor
      · intro hfalse
        exact absurd hfalse (by decide)
      · rintro (h | ⟨heq, _⟩)
        · exact absurd h h1
        · exact absurd heq (by omega)
    · rw [if_neg h2]
      have heq : a.toNat = b.toNat := by omega
      simp [h1, heq]

theorem listCharLe_total : ∀ as bs : List Char,
    listCharLe as bs = true ∨ listCharLe bs as = true := by
  intro as
  induction as with
  | nil => intro bs; left; rfl
  | cons a atl ih =>
      intro bs
      cases bs with
      | nil => right; rfl
      | cons b btl =>
          rcases Nat.lt_trichotomy a.toNat b.toNat with h | h | h
          · left
            exact (listCharLe_cons_iff a b atl btl).mpr (Or.inl h)
          · rcases ih btl with h1 | h1
            · left
              exact (listCharLe_cons_iff a b atl btl).mpr (Or.inr ⟨h, h1⟩)
            · right
              exact (listCharLe_cons_iff b a btl atl).mpr (Or.inr ⟨h.symm, h1⟩)
          · right
            exact (listCharLe_cons_iff b a btl atl).mpr (Or.inl h)

theorem listCharLe_trans : ∀ as bs cs : List Char,
    listCharLe as bs = true → listCharLe bs cs = true → listCharLe as cs = true := by
  intro as
  induction as with
  | nil => intro bs cs _ _; rfl
  | cons a atl ih =>
      intro bs cs hab hbc
      cases bs with
      | nil => simp [listCharLe] at hab
      | cons b btl =>
          cases cs with
          | nil => simp [listCharLe] at hbc
          | cons c ctl =>
              rcases (listCharLe_cons_iff a b atl btl).mp hab with h1 | ⟨h1, hr1⟩ <;>
                rcases (listCharLe_cons_iff b c btl ctl).mp hbc with h2 | ⟨h2, hr2⟩
              · exact (listCharLe_cons_iff a c atl ctl).mpr (Or.inl (Nat.lt_trans h1 h2))
              · exact (listCharLe_cons_iff a c atl ctl).mpr (Or.inl (h2 ▸ h1))
              · exact (listCharLe_cons_iff a c atl ctl).mpr (Or.inl (h1 ▸ h2))
              · exact (listCharLe_cons_iff a c atl ctl).mpr
                  (Or.inr ⟨h1.trans h2, ih btl ctl hr1 hr2⟩)

instance : IsTotal String (fun a b => strLe a b = true) :=
  ⟨fun a b => listCharLe_total a.data b.data⟩

instance : IsTrans String (fun a b => strLe a b = true) :=
  ⟨fun a b c => listCharLe_trans a.data b.data c.data⟩

theorem foldl_filter_map_append {α β : Type} (p : α → Bool) (f : α → β)
    (l : List α) (acc : List β) :
    l.foldl (fun a x => if p x then a ++ [f x] else a) acc
      = acc ++ (l.filter p).map f := by
  induction l generalizing acc with
  | nil => simp
  | cons x tl ih =>
      simp only [List.foldl_cons, List.filter_cons]
      by_cases hx : p x = true
      · rw [if_pos hx, if_pos hx, ih]
        simp
      · rw [if_neg hx, if_neg hx, ih]

/-- The source's tuple `endswith` test equals the claim's
case-insensitive membership in the fixed extension set. -/
theorem hasImageExtension_eq_any (n : String) :
    hasImageExtension n
      = (["jpg", "jpeg", "png", "gif", "webp"].any
          (fun e => strEndsWith (strLower n) ("." ++ e))) := by
  simp only [List.any_cons, List.any_nil, Bool.or_false]
  simp [hasImageExtension, Bool.or_assoc]

/-- Claim C8: when the article names a (truthy) gallery directory and
that directory exists under the images root, the rendered gallery image
list is exactly the directory's listing sorted lexicographically,
restricted to names whose extension is one of jpg, jpeg, png, gif, webp
compared case-insensitively, each returned as a path relative to the
images root (first conjunct); the sorted listing is indeed in
lexicographic order (second conjunct). -/
theorem claim_C8_gallery_enumeration (fs : FS) (assets_dir images_root g : String)
    (data : ArticleData) (hg : data.gallery_dir = some g) (hne : g ≠ "")
    (hdir : fs.isDir (osJoin images_root g) = true) :
    (render_article fs assets_dir images_root data).1.gallery_images
      = ((pySorted (fs.listdir (osJoin images_root g))).filter
            (fun n => ["jpg", "jpeg", "png", "gif", "webp"].any
              (fun e => strEndsWith (strLower n) ("." ++ e)))).map
          (fun n => osRelpath (osJoin (osJoin images_root g) n) images_root)
  ∧ List.Sorted (fun a b => strLe a b = true)
      (pySorted (fs.listdir (osJoin images_root g))) := by
  constructor
  · show galleryImages fs images_root data.gallery_dir = _
    rw [hg]
    show (if g = "" then []
      else if fs.isDir (osJoin images_root g) = true then
        (pySorted (fs.listdir (osJoin images_root g))).foldl
          (fun acc name =>
            if hasImageExtension name then
              acc ++ [osRelpath (osJoin (osJoin images_root g) name) images_root]
            else acc) []
      else []) = _
    rw [if_neg hne, if_pos hdir]
    rw [foldl_filter_map_append]
    rw [List.nil_append]
    rw [List.filter_congr (fun n _ => hasImageExtension_eq_any n)]
  · exact List.sorted_insertionSort _ _

def dataGallery : ArticleData :=
  { article := { title := "T", slug := "t" },
    reviews := [], gallery_dir := some "g" }

/-- Witness for claim C8: a gallery directory listing `b.png`, `a.jpg`,
`note.txt` enumerates to `["g/a.jpg", "g/b.png"]` — lexicographically
sorted, non-image file excluded, root-relative. -/
theorem claim_C8_gallery_enumeration_witness :
    (render_article fsImages "assets" "images" dataGallery).1.gallery_images
      = ["g/a.jpg", "g/b.png"] := by
  rw [(claim_C8_gallery_enumeration fsImages "assets" "images" "g" dataGallery
    rfl (by decide) rfl).1]
  rfl

/-- Claim C10: `render_article` hands back its `ArticleData` with every
review's `images` destructively replaced by the resolved
(existence-filtered, root-relative) list — the originally declared
paths are gone from the caller's data — while the article record, the
gallery directory, and every other review field (author, rating, date,
content, pros, cons) are left unchanged. -/
theorem claim_C10_render_mutates_reviews (fs : FS) (assets_dir images_root : String)
    (data : ArticleData) :
    ((render_article fs assets_dir images_root data).2.article = data.article)
  ∧ ((render_article fs assets_dir images_root data).2.gallery_dir = data.gallery_dir)
  ∧ ((render_article fs assets_dir images_root data).2.reviews
      = data.reviews.map (fun rv =>
          { rv with images :=
              ((rv.images.filter (fun p => p ≠ "" && fs.pathExists (osJoin images_root p))).map
                (fun p => osRelpath (osJoin images_root p) images_root)) }))
  ∧ ((render_article fs assets_dir images_root data).2.reviews.map Review.author
      = data.reviews.map Review.author)
  ∧ ((render_article fs assets_dir images_root data).2.reviews.map Review.rating
      = data.reviews.map Review.rating)
  ∧ ((render_article fs assets_dir images_root data).2.reviews.map Review.date
      = data.reviews.map Review.date)
  ∧ ((render_article fs assets_dir images_root data).2.reviews.map Review.content
      = data.reviews.map Review.content)
  ∧ ((render_article fs assets_dir images_root data).2.reviews.map Review.pros
      = data.reviews.map Review.pros)
  ∧ ((render_article fs assets_dir images_root data).2.reviews.map Review.cons
      = data.reviews.map Review.cons) := by
  have hrev := render_article_reviews fs assets_dir images_root data
  refine ⟨rfl, rfl, ?_, ?_, ?_, ?_, ?_, ?_, ?_⟩
  · rw [hrev]
    apply List.map_congr_left
    intro rv _
    simp only [resolveReviewImages_fst]
  all_goals rw [hrev, List.map_map]
  all_goals rfl
